import Mathlib

/-!
Verification of the Kea packet-classification expression engine
(`src/lib/eval/token.h`): a stack-based evaluator over compiled RPN token
sequences.  The repository slice contains only the declarations and their
doc comments in `token.h`; the token `evaluate` bodies live in a source
file that is not part of the slice, so every `evaluate` body below is
modelled from the specification (spec.md sections 3, 4.2 to 4.4, 6 and 7)
and the doc comments of `token.h`.
-/

namespace Kea

/-- Evaluated values are stored as strings (`ValueStack` holds
`std::string`); a C++ string is a byte sequence, modelled as a list of
characters. -/
abbrev Value := List Char

/-- The literal value `"true"`. -/
def trueVal : Value := "true".toList

/-- The literal value `"false"`. -/
def falseVal : Value := "false".toList

/-- The literal length argument `"all"` of `substring`. -/
def allVal : Value := "all".toList

/-- The boolean literal of a `Bool`, pushed by operator tokens. -/
def boolVal (b : Bool) : Value := if b then trueVal else falseVal

/-- The two evaluation error kinds of `token.h`: `EvalBadStack` (more or
less parameters on the stack than expected) and `EvalTypeError` (a value
on the stack has a content with an unexpected type). -/
inductive EvalError where
  | badStack
  | typeError
deriving DecidableEq

instance {ε α : Type} [DecidableEq ε] [DecidableEq α] :
    DecidableEq (Except ε α) := fun a b =>
  match a, b with
  | .ok x, .ok y =>
    if h : x = y then .isTrue (congrArg Except.ok h)
    else .isFalse (fun hc => h (Except.ok.inj hc))
  | .ok _, .error _ => .isFalse (fun hc => Except.noConfusion hc)
  | .error _, .ok _ => .isFalse (fun hc => Except.noConfusion hc)
  | .error x, .error y =>
    if h : x = y then .isTrue (congrArg Except.error h)
    else .isFalse (fun hc => h (Except.error.inj hc))

/-- `Token::toBool`: only the exact spellings `"true"` and `"false"` are
accepted; anything else is an `EvalTypeError`. -/
def toBool (v : Value) : Except EvalError Bool :=
  if v = trueVal then .ok true
  else if v = falseVal then .ok false
  else .error .typeError

/-- A 32-bit unsigned value as a 4-byte big-endian string, used for
`hlen`, `htype`, `msgtype` and `transid` fields. -/
def u32be (n : Nat) : Value :=
  [Char.ofNat (n / 2 ^ 24 % 256), Char.ofNat (n / 2 ^ 16 % 256),
   Char.ofNat (n / 2 ^ 8 % 256), Char.ofNat (n % 256)]

/-- Value of one hexadecimal digit character, `none` for other
characters. -/
def hexDigit (c : Char) : Option Nat :=
  if '0' ≤ c ∧ c ≤ '9' then some (c.toNat - '0'.toNat)
  else if 'a' ≤ c ∧ c ≤ 'f' then some (c.toNat - 'a'.toNat + 10)
  else if 'A' ≤ c ∧ c ≤ 'F' then some (c.toNat - 'A'.toNat + 10)
  else none

/-- Decode an even-length run of hexadecimal digit characters into raw
bytes, two digits per byte, most significant nibble first. -/
def hexPairs : List Char → Option Value
  | [] => some []
  | [_] => none
  | hi :: lo :: rest =>
    match hexDigit hi, hexDigit lo, hexPairs rest with
    | some h, some l, some r => some (Char.ofNat (16 * h + l) :: r)
    | _, _, _ => none

/-- Modelled from the spec: the decoding done by the `TokenHexString`
constructor (its body is not in the slice).  A string of the form `0x` or
`0X` followed by a non-empty run of hexadecimal digits decodes to raw
bytes; an odd run is zero-extended on the most significant nibble; any
other string fails to decode. -/
def hexDecode (s : String) : Option Value :=
  match s.toList with
  | '0' :: x :: rest =>
    if (x = 'x' ∨ x = 'X') ∧ rest ≠ [] then
      hexPairs (if rest.length % 2 = 1 then '0' :: rest else rest)
    else none
  | _ => none

/-- Split a character list on a separator character; `n` separators give
`n + 1` groups, empty groups included. -/
def splitOnChar (sep : Char) : List Char → List (List Char)
  | [] => [[]]
  | c :: rest =>
    if c = sep then [] :: splitOnChar sep rest
    else
      match splitOnChar sep rest with
      | g :: gs => (c :: g) :: gs
      | [] => [[c]]

/-- A decimal octet of a dotted-quad IPv4 address: one to three decimal
digits with value at most 255. -/
def parseDecOctet (g : List Char) : Option Nat :=
  if g = [] ∨ 3 < g.length ∨ ¬ g.all (fun c => c.isDigit) then none
  else
    let n := g.foldl (fun acc c => 10 * acc + (c.toNat - '0'.toNat)) 0
    if n ≤ 255 then some n else none

/-- Modelled from the spec: textual IPv4 address to its raw 4-byte binary
form (the `TokenIpAddress` constructor body is not in the slice). -/
def parseIPv4 (s : String) : Option Value :=
  match splitOnChar '.' s.toList with
  | [a, b, c, d] =>
    match parseDecOctet a, parseDecOctet b, parseDecOctet c, parseDecOctet d with
    | some x, some y, some z, some w =>
      some [Char.ofNat x, Char.ofNat y, Char.ofNat z, Char.ofNat w]
    | _, _, _, _ => none
  | _ => none

/-- One 16-bit group of an IPv6 address: one to four hexadecimal
digits. -/
def group16 (g : List Char) : Option Nat :=
  if g = [] ∨ 4 < g.length then none
  else g.foldl (fun acc c =>
    match acc, hexDigit c with
    | some a, some d => some (16 * a + d)
    | _, _ => none) (some 0)

/-- A 16-bit group as two bytes, most significant first. -/
def groupBytes (n : Nat) : Value := [Char.ofNat (n / 256), Char.ofNat (n % 256)]

/-- Concatenated bytes of a list of 16-bit groups, failing if any group
is malformed. -/
def parseGroups : List (List Char) → Option Value
  | [] => some []
  | g :: gs =>
    match group16 g, parseGroups gs with
    | some n, some v => some (groupBytes n ++ v)
    | _, _ => none

/-- Split a character list at the first occurrence of a double colon,
returning the parts before and after it, or `none` when there is no
double colon. -/
def findDoubleColon : List Char → Option (List Char × List Char)
  | ':' :: ':' :: rest => some ([], rest)
  | c :: rest =>
    match findDoubleColon rest with
    | some (a, b) => some (c :: a, b)
    | none => none
  | [] => none

/-- Modelled from the spec: textual IPv6 address to its raw 16-byte
binary form (the `TokenIpAddress` constructor body is not in the slice).
Either eight colon-separated 16-bit groups, or at most seven groups with
one double-colon run of zero groups. -/
def parseIPv6 (s : String) : Option Value :=
  let cs := s.toList
  match findDoubleColon cs with
  | none =>
    let gs := splitOnChar ':' cs
    if gs.length = 8 then parseGroups gs else none
  | some (l, r) =>
    let lg := if l = [] then [] else splitOnChar ':' l
    let rg := if r = [] then [] else splitOnChar ':' r
    if lg.length + rg.length ≤ 7 then
      match parseGroups lg, parseGroups rg with
      | some lv, some rv =>
        some (lv ++ List.replicate (2 * (8 - lg.length - rg.length)) (Char.ofNat 0) ++ rv)
      | _, _ => none
    else none

/-- Modelled from the spec: the parsing done by the `TokenIpAddress`
constructor — a textual IPv4 or IPv6 address becomes its raw binary form
(4 or 16 bytes); an unparseable address fails. -/
def parseIpAddress (s : String) : Option Value :=
  match parseIPv4 s with
  | some v => some v
  | none => parseIPv6 s

/-- A non-empty run of decimal digit characters as a natural number. -/
def parseDigits (ds : List Char) : Option Nat :=
  if ds = [] ∨ ¬ ds.all (fun c => c.isDigit) then none
  else some (ds.foldl (fun acc c => 10 * acc + (c.toNat - '0'.toNat)) 0)

/-- Modelled from the spec: signed decimal text parsing used for the
`start` and `length` arguments of `substring` (section 4.4, numeric
semantics note). -/
def parseInt (v : Value) : Option Int :=
  match v with
  | '-' :: ds => (parseDigits ds).map (fun n => -(n : Int))
  | '+' :: ds => (parseDigits ds).map (fun n => (n : Int))
  | ds => (parseDigits ds).map (fun n => (n : Int))

/-- One DHCPv6 relay-forwarding envelope: peer and link address are IPv6
addresses, hence always exactly 16 bytes (zero-filled when the relay
never set them), plus the options the relay inserted at that level. -/
structure Relay6 where
  peeraddr : Value
  linkaddr : Value
  options : Nat → Option Value
  peeraddr_len : peeraddr.length = 16
  linkaddr_len : linkaddr.length = 16

/-- A DHCPv4 packet as the engine sees it (spec section 6): option
payload lookup by code, Relay Agent Information sub-option lookup
(absence of the container option gives `none` for every code), the
structural fields read by `TokenPkt4`.  The hardware-address length
`hlen` is the length of `hwaddr`; the four IPv4 address fields are
4-byte values. -/
structure Pkt4 where
  options : Nat → Option Value
  rai : Nat → Option Value
  hwaddr : Value
  htype : Nat
  giaddr : Value
  ciaddr : Value
  yiaddr : Value
  siaddr : Value
  giaddr_len : giaddr.length = 4
  ciaddr_len : ciaddr.length = 4
  yiaddr_len : yiaddr.length = 4
  siaddr_len : siaddr.length = 4

/-- A DHCPv6 packet: option payload lookup by code, the relay envelopes
(index 0 closest to the server), and the structural fields read by
`TokenPkt6`. -/
structure Pkt6 where
  options : Nat → Option Value
  relays : List Relay6
  msgtype : Nat
  transid : Nat

/-- A packet of either protocol family. -/
inductive Pkt where
  | v4 : Pkt4 → Pkt
  | v6 : Pkt6 → Pkt

/-- Option payload lookup on either family (`none` when absent). -/
def Pkt.getOptionPayload : Pkt → Nat → Option Value
  | .v4 p, c => p.options c
  | .v6 p, c => p.options c

/-- DHCPv4 Relay Agent Information sub-option lookup; a DHCPv6 packet
carries no option 82, so every lookup is absent there. -/
def Pkt.relay4SubOption : Pkt → Nat → Option Value
  | .v4 p, c => p.rai c
  | .v6 _, _ => none

/-- Option lookup inside the DHCPv6 relay envelope at the given nesting
depth; absent when the envelope does not exist or is not a DHCPv6
packet. -/
def Pkt.relay6Option : Pkt → Nat → Nat → Option Value
  | .v6 p, nest, c =>
    match p.relays.get? nest with
    | some r => r.options c
    | none => none
  | .v4 _, _, _ => none

/-- `TokenOption::RepresentationType`. -/
inductive RepType where
  | TEXTUAL
  | HEXADECIMAL
  | EXISTS
deriving DecidableEq

/-- `TokenPkt4::FieldType`. -/
inductive Pkt4FieldType where
  | CHADDR
  | GIADDR
  | CIADDR
  | YIADDR
  | SIADDR
  | HLEN
  | HTYPE
deriving DecidableEq

/-- `TokenPkt6::FieldType`. -/
inductive Pkt6FieldType where
  | MSGTYPE
  | TRANSID
deriving DecidableEq

/-- `TokenRelay6Field::FieldType`. -/
inductive Relay6FieldType where
  | PEERADDR
  | LINKADDR
deriving DecidableEq

/-- The closed token variant set of `token.h` (spec section 3).  The
literal tokens store the `value_` computed by their constructor. -/
inductive Token where
  | tString (v : Value)
  | tHexString (v : Value)
  | tIpAddress (v : Value)
  | tOption (code : Nat) (rep : RepType)
  | tRelay4Option (code : Nat) (rep : RepType)
  | tRelay6Option (nest : Nat) (code : Nat) (rep : RepType)
  | tRelay6Field (nest : Nat) (field : Relay6FieldType)
  | tPkt4 (field : Pkt4FieldType)
  | tPkt6 (field : Pkt6FieldType)
  | tEqual
  | tSubstring
  | tConcat
  | tNot
  | tAnd
  | tOr

/-- The `TokenHexString` constructor: decode the `0x…` literal now; on
failure store the empty value (evaluation then pushes it instead of
failing). -/
def mkTokenHexString (s : String) : Token :=
  .tHexString ((hexDecode s).getD [])

/-- The `TokenIpAddress` constructor: parse the textual address now; on
failure store the empty value. -/
def mkTokenIpAddress (s : String) : Token :=
  .tIpAddress ((parseIpAddress s).getD [])

/-- Modelled from the spec: the value pushed by `TokenOption::evaluate`
(and its relay subclasses) given the looked-up payload: absent gives
`""` for TEXTUAL and HEXADECIMAL and `"false"` for EXISTS; present gives
the payload bytes verbatim for TEXTUAL and HEXADECIMAL and `"true"` for
EXISTS. -/
def optionValue (payload : Option Value) (rep : RepType) : Value :=
  match payload, rep with
  | none, .TEXTUAL => []
  | none, .HEXADECIMAL => []
  | none, .EXISTS => falseVal
  | some p, .TEXTUAL => p
  | some p, .HEXADECIMAL => p
  | some _, .EXISTS => trueVal

/-- The start index of `substring` after end-relative adjustment: 0 is
the first character and a negative start counts from the end of the
`n`-character string, -1 being the last character. -/
def resolveStart (n : Nat) (start : Int) : Int :=
  if start < 0 then (n : Int) + start else start

/-- The `length` step of `substring`, at resolved in-range start index
`s0`: `"all"` selects through the end of the string; a non-negative
integer selects that many characters forward from `s0`, clamped to the
string's end; a negative integer selects that many characters ending
just before `s0`, clamped to the string's start; anything else is an
`EvalTypeError`. -/
def substringLen (strv : Value) (s0 : Nat) (lenv : Value) : Except EvalError Value :=
  if lenv = allVal then .ok (strv.drop s0)
  else
    match parseInt lenv with
    | none => .error .typeError
    | some len =>
      if 0 ≤ len then .ok ((strv.drop s0).take len.toNat)
      else .ok ((strv.drop (s0 - (-len).toNat)).take (s0 - (s0 - (-len).toNat)))

/-- The `start` step of `substring`, after `start` parsed to an integer:
a resolved index outside the string gives `""`, otherwise the `length`
step runs. -/
def substringPostStart (strv : Value) (start : Int) (lenv : Value) :
    Except EvalError Value :=
  if resolveStart strv.length start < 0 ∨
     (strv.length : Int) ≤ resolveStart strv.length start then .ok []
  else substringLen strv (resolveStart strv.length start).toNat lenv

/-- Modelled from the spec: `TokenSubstring` semantics on the three
popped values (section 4.4).  Empty base string gives `""`; `start` must
parse as a signed decimal integer (else an `EvalTypeError`); then the
start and length steps run. -/
def substringEval (strv startv lenv : Value) : Except EvalError Value :=
  if strv = [] then .ok []
  else
    match parseInt startv with
    | none => .error .typeError
    | some start => substringPostStart strv start lenv

/-- Modelled from the spec: `Token::evaluate(pkt, values)` for every
token variant (spec sections 4.2 to 4.4 and the `token.h` doc comments).
The stack grows at its head; errors abort the evaluation. -/
def Token.evaluate : Token → Pkt → List Value → Except EvalError (List Value)
  | .tString v, _, st => .ok (v :: st)
  | .tHexString v, _, st => .ok (v :: st)
  | .tIpAddress v, _, st => .ok (v :: st)
  | .tOption code rep, pkt, st =>
    .ok (optionValue (pkt.getOptionPayload code) rep :: st)
  | .tRelay4Option code rep, pkt, st =>
    .ok (optionValue (pkt.relay4SubOption code) rep :: st)
  | .tRelay6Option nest code rep, pkt, st =>
    .ok (optionValue (pkt.relay6Option nest code) rep :: st)
  | .tRelay6Field nest field, pkt, st =>
    match pkt with
    | .v4 _ => .error .typeError
    | .v6 p6 =>
      match p6.relays.get? nest with
      | none => .ok ([] :: st)
      | some r =>
        .ok ((match field with
              | .PEERADDR => r.peeraddr
              | .LINKADDR => r.linkaddr) :: st)
  | .tPkt4 field, pkt, st =>
    match pkt with
    | .v6 _ => .error .typeError
    | .v4 p4 =>
      .ok ((match field with
            | .CHADDR => p4.hwaddr
            | .GIADDR => p4.giaddr
            | .CIADDR => p4.ciaddr
            | .YIADDR => p4.yiaddr
            | .SIADDR => p4.siaddr
            | .HLEN => u32be p4.hwaddr.length
            | .HTYPE => u32be p4.htype) :: st)
  | .tPkt6 field, pkt, st =>
    match pkt with
    | .v4 _ => .error .typeError
    | .v6 p6 =>
      .ok ((match field with
            | .MSGTYPE => u32be p6.msgtype
            | .TRANSID => u32be p6.transid) :: st)
  | .tEqual, _, st =>
    match st with
    | a :: b :: rest => .ok ((if a = b then trueVal else falseVal) :: rest)
    | _ => .error .badStack
  | .tSubstring, _, st =>
    match st with
    | lenv :: startv :: strv :: rest =>
      match substringEval strv startv lenv with
      | .ok v => .ok (v :: rest)
      | .error e => .error e
    | _ => .error .badStack
  | .tConcat, _, st =>
    match st with
    | op1 :: op2 :: rest => .ok ((op2 ++ op1) :: rest)
    | _ => .error .badStack
  | .tNot, _, st =>
    match st with
    | v :: rest =>
      match toBool v with
      | .ok b => .ok (boolVal (! b) :: rest)
      | .error e => .error e
    | _ => .error .badStack
  | .tAnd, _, st =>
    match st with
    | v1 :: v2 :: rest =>
      match toBool v1 with
      | .error e => .error e
      | .ok b1 =>
        match toBool v2 with
        | .error e => .error e
        | .ok b2 => .ok (boolVal (b1 && b2) :: rest)
    | _ => .error .badStack
  | .tOr, _, st =>
    match st with
    | v1 :: v2 :: rest =>
      match toBool v1 with
      | .error e => .error e
      | .ok b1 =>
        match toBool v2 with
        | .error e => .error e
        | .ok b2 => .ok (boolVal (b1 || b2) :: rest)
    | _ => .error .badStack

/-- How many values a token pops: 2 for `Equal`, `Concat`, `And` and
`Or`, 1 for `Not`, 3 for `Substring`, 0 for every literal and extractor
token (spec section 4.4). -/
def Token.arity : Token → Nat
  | .tEqual => 2
  | .tConcat => 2
  | .tNot => 1
  | .tAnd => 2
  | .tOr => 2
  | .tSubstring => 3
  | _ => 0

/-- Run the tokens of an expression in stored order against a stack,
stopping at the first error. -/
def runExpr (e : List Token) (pkt : Pkt) (st : List Value) :
    Except EvalError (List Value) :=
  match e with
  | [] => .ok st
  | t :: rest =>
    match t.evaluate pkt st with
    | .ok st2 => runExpr rest pkt st2
    | .error err => .error err

/-- Modelled from the spec: the top-level `evaluate(expression, packet)`
entry point (section 4.1): run the tokens from an empty stack; a final
stack of other than one value is an `EvalBadStack` error; the single
value is converted with `Token::toBool` (an `EvalTypeError` unless it is
exactly `"true"` or `"false"`). -/
def evaluate (e : List Token) (pkt : Pkt) : Except EvalError Bool :=
  match runExpr e pkt [] with
  | .error err => .error err
  | .ok st =>
    match st with
    | [v] => toBool v
    | _ => .error .badStack

/-! ### Concrete objects used by the claims -/

/-- A 4-byte all-zero IPv4 address value. -/
def zeros4 : Value := List.replicate 4 (Char.ofNat 0)

/-- A 16-byte all-zero IPv6 address value, the field content of a relay
that never set it. -/
def zeros16 : Value := List.replicate 16 (Char.ofNat 0)

/-- A DHCPv6 packet with no options and no relay envelopes. -/
def pkt0 : Pkt :=
  .v6 { options := fun _ => none, relays := [], msgtype := 0, transid := 0 }

/-- A baseline DHCPv4 packet with no options and zero fields. -/
def pkt4Base : Pkt4 :=
  { options := fun _ => none, rai := fun _ => none, hwaddr := [], htype := 1,
    giaddr := zeros4, ciaddr := zeros4, yiaddr := zeros4, siaddr := zeros4,
    giaddr_len := rfl, ciaddr_len := rfl, yiaddr_len := rfl, siaddr_len := rfl }

/-- The bytes `"MSFT"`. -/
def msftVal : Value := "MSFT".toList

/-- A DHCPv4 packet whose option 60 payload is the bytes `"MSFT"`. -/
def msftPkt : Pkt :=
  .v4 { pkt4Base with options := fun c => if c = 60 then some msftVal else none }

/-- A DHCPv4 packet without option 60. -/
def noVendorPkt : Pkt := .v4 pkt4Base

/-- A DHCPv4 packet with an empty-payload instance of option 60. -/
def emptyOptPkt : Pkt :=
  .v4 { pkt4Base with options := fun c => if c = 60 then some [] else none }

/-- The compiled expression for `option[60].text == 'MSFT'`. -/
def msftExpr : List Token := [.tOption 60 .TEXTUAL, .tString msftVal, .tEqual]

/-- A relay envelope whose peer and link address were never set. -/
def relayZ : Relay6 :=
  { peeraddr := zeros16, linkaddr := zeros16, options := fun _ => none,
    peeraddr_len := rfl, linkaddr_len := rfl }

/-- A DHCPv6 packet wrapped in exactly one relay envelope. -/
def relayPkt6 : Pkt6 :=
  { options := fun _ => none, relays := [relayZ], msgtype := 0, transid := 0 }

/-- A string that is not a valid `0x…` hexadecimal literal. -/
def hexBadStr : String := "0xzz"

/-- A string that parses as neither an IPv4 nor an IPv6 address. -/
def ipBadStr : String := "hello"

/-! ### Helper lemmas -/

lemma toBool_boolVal (b : Bool) : toBool (boolVal b) = .ok b := by
  cases b <;> rfl

lemma toBool_bad {v : Value} (h1 : v ≠ trueVal) (h2 : v ≠ falseVal) :
    toBool v = .error .typeError := by
  unfold toBool
  rw [if_neg h1, if_neg h2]

lemma toBool_ok_iff (v : Value) (b : Bool) : toBool v = .ok b ↔ v = boolVal b := by
  unfold toBool
  split_ifs with h1 h2
  · subst h1
    cases b <;> first
      | (simp [boolVal]; done)
      | (simp [boolVal]; decide)
  · subst h2
    cases b <;> first
      | (simp [boolVal]; done)
      | (simp [boolVal]; decide)
  · cases b <;> simp [boolVal, h1, h2]

lemma evaluate_run_single {e : List Token} {pkt : Pkt} {v : Value}
    (h : runExpr e pkt [] = .ok [v]) : evaluate e pkt = toBool v := by
  unfold evaluate
  rw [h]

lemma evaluate_run_nil {e : List Token} {pkt : Pkt}
    (h : runExpr e pkt [] = .ok []) : evaluate e pkt = .error .badStack := by
  unfold evaluate
  rw [h]

lemma evaluate_run_many {e : List Token} {pkt : Pkt} {v w : Value}
    {rest : List Value} (h : runExpr e pkt [] = .ok (v :: w :: rest)) :
    evaluate e pkt = .error .badStack := by
  unfold evaluate
  rw [h]

lemma evaluate_run_error {e : List Token} {pkt : Pkt} {err : EvalError}
    (h : runExpr e pkt [] = .error err) : evaluate e pkt = .error err := by
  unfold evaluate
  rw [h]

lemma substringEval_some {strv startv : Value} {k : Int} (lenv : Value)
    (hne : strv ≠ []) (hk : parseInt startv = some k) :
    substringEval strv startv lenv = substringPostStart strv k lenv := by
  unfold substringEval
  rw [if_neg hne, hk]

/-! ### Claim theorems -/

/-- C3: `Option(code, representation)` pushes exactly one value onto the
given stack, determined by presence and representation: absent gives
`""` for TEXTUAL and HEXADECIMAL and `"false"` for EXISTS; present gives
the payload bytes verbatim for TEXTUAL, the raw payload bytes for
HEXADECIMAL, and `"true"` for EXISTS, so a present empty-payload option
yields `"true"` under EXISTS. -/
theorem C3_option_token :
    (∀ (pkt : Pkt) (code : Nat) (st : List Value),
      pkt.getOptionPayload code = none →
        Token.evaluate (.tOption code .TEXTUAL) pkt st = .ok (([] : Value) :: st) ∧
        Token.evaluate (.tOption code .HEXADECIMAL) pkt st = .ok (([] : Value) :: st) ∧
        Token.evaluate (.tOption code .EXISTS) pkt st = .ok (falseVal :: st)) ∧
    (∀ (pkt : Pkt) (code : Nat) (p : Value) (st : List Value),
      pkt.getOptionPayload code = some p →
        Token.evaluate (.tOption code .TEXTUAL) pkt st = .ok (p :: st) ∧
        Token.evaluate (.tOption code .HEXADECIMAL) pkt st = .ok (p :: st) ∧
        Token.evaluate (.tOption code .EXISTS) pkt st = .ok (trueVal :: st)) ∧
    Token.evaluate (.tOption 60 .EXISTS) emptyOptPkt [] = .ok [trueVal] ∧
    Token.evaluate (.tOption 60 .EXISTS) noVendorPkt [] = .ok [falseVal] := by
  refine ⟨?_, ?_, rfl, rfl⟩
  · intro pkt code st h
    refine ⟨?_, ?_, ?_⟩ <;> simp [Token.evaluate, optionValue, h]
  · intro pkt code p st h
    refine ⟨?_, ?_, ?_⟩ <;> simp [Token.evaluate, optionValue, h]

theorem C3_option_token_witness :
    Token.evaluate (.tOption 123 .TEXTUAL) noVendorPkt [] = .ok [([] : Value)] ∧
    Token.evaluate (.tOption 60 .TEXTUAL) msftPkt [] = .ok [msftVal] :=
  ⟨(C3_option_token.1 noVendorPkt 123 [] rfl).1,
   (C3_option_token.2.1 msftPkt 60 msftVal [] rfl).1⟩

/-- C4: the boolean operators accept only the exact spellings `"true"`
and `"false"` and raise an `EvalTypeError` for any other popped value
(given sufficient stack depth); `Not` negates, `And` is `"true"` iff
both operands are `"true"`, `Or` is `"false"` iff both are `"false"`,
matching the standard truth tables. -/
theorem C4_boolean_ops :
    (∀ (pkt : Pkt) (b : Bool) (rest : List Value),
      Token.evaluate .tNot pkt (boolVal b :: rest) = .ok (boolVal (! b) :: rest)) ∧
    (∀ (pkt : Pkt) (v : Value) (rest : List Value),
      v ≠ trueVal → v ≠ falseVal →
      Token.evaluate .tNot pkt (v :: rest) = .error .typeError) ∧
    (∀ (pkt : Pkt) (b1 b2 : Bool) (rest : List Value),
      Token.evaluate .tAnd pkt (boolVal b1 :: boolVal b2 :: rest) =
        .ok (boolVal (b1 && b2) :: rest)) ∧
    (∀ (pkt : Pkt) (b1 b2 : Bool) (rest : List Value),
      Token.evaluate .tOr pkt (boolVal b1 :: boolVal b2 :: rest) =
        .ok (boolVal (b1 || b2) :: rest)) ∧
    (∀ (pkt : Pkt) (v w : Value) (rest : List Value),
      (v ≠ trueVal ∧ v ≠ falseVal) ∨ (w ≠ trueVal ∧ w ≠ falseVal) →
      Token.evaluate .tAnd pkt (v :: w :: rest) = .error .typeError ∧
      Token.evaluate .tOr pkt (v :: w :: rest) = .error .typeError) := by
  refine ⟨?_, ?_, ?_, ?_, ?_⟩
  · intro pkt b rest
    simp [Token.evaluate, toBool_boolVal]
  · intro pkt v rest h1 h2
    simp [Token.evaluate, toBool_bad h1 h2]
  · intro pkt b1 b2 rest
    simp [Token.evaluate, toBool_boolVal]
  · intro pkt b1 b2 rest
    simp [Token.evaluate, toBool_boolVal]
  · intro pkt v w rest h
    rcases h with ⟨h1, h2⟩ | ⟨h1, h2⟩
    · constructor <;> simp [Token.evaluate, toBool_bad h1 h2]
    · cases hv : toBool v with
      | ok b => constructor <;> simp [Token.evaluate, hv, toBool_bad h1 h2]
      | error e =>
        have he : e = .typeError := by
          unfold toBool at hv
          split_ifs at hv
          simp_all
        subst he
        constructor <;> simp [Token.evaluate, hv]

theorem C4_boolean_ops_witness :
    Token.evaluate .tNot pkt0 [trueVal] = .ok [falseVal] ∧
    Token.evaluate .tNot pkt0 [msftVal] = .error .typeError ∧
    Token.evaluate .tAnd pkt0 [trueVal, msftVal] = .error .typeError :=
  ⟨C4_boolean_ops.1 pkt0 true [],
   C4_boolean_ops.2.1 pkt0 msftVal [] (by decide) (by decide),
   (C4_boolean_ops.2.2.2.2 pkt0 trueVal msftVal []
     (Or.inr ⟨by decide, by decide⟩)).1⟩

/-- C5: `Equal` pops two values and pushes `"true"` exactly when they
are byte-for-byte identical and `"false"` otherwise — never numeric or
case-insensitive comparison — and is therefore reflexive and symmetric
in the order the two operands were pushed. -/
theorem C5_equal_bytewise :
    (∀ (pkt : Pkt) (a b : Value) (rest : List Value),
      Token.evaluate .tEqual pkt (a :: b :: rest) =
        .ok ((if a = b then trueVal else falseVal) :: rest)) ∧
    (∀ (pkt : Pkt) (x : Value) (rest : List Value),
      Token.evaluate .tEqual pkt (x :: x :: rest) = .ok (trueVal :: rest)) ∧
    (∀ (pkt : Pkt) (a b : Value) (rest : List Value),
      Token.evaluate .tEqual pkt (a :: b :: rest) =
        Token.evaluate .tEqual pkt (b :: a :: rest)) ∧
    Token.evaluate .tEqual pkt0 [['1'], ['0', '1']] = .ok [falseVal] ∧
    Token.evaluate .tEqual pkt0 [['A'], ['a']] = .ok [falseVal] := by
  refine ⟨fun pkt a b rest => rfl, ?_, ?_, rfl, rfl⟩
  · intro pkt x rest
    simp [Token.evaluate]
  · intro pkt a b rest
    by_cases h : a = b
    · subst h; rfl
    · simp [Token.evaluate, h, Ne.symm h]

/-- C9: every operator invoked on a stack holding fewer values than it
requires (2 for `Equal`, `Concat`, `And`, `Or`; 1 for `Not`; 3 for
`Substring`) fails with the `EvalBadStack` underflow error and pushes no
result. -/
theorem C9_stack_underflow :
    (∀ (pkt : Pkt) (st : List Value), st.length < 2 →
      Token.evaluate .tEqual pkt st = .error .badStack) ∧
    (∀ (pkt : Pkt) (st : List Value), st.length < 2 →
      Token.evaluate .tConcat pkt st = .error .badStack) ∧
    (∀ (pkt : Pkt) (st : List Value), st.length < 1 →
      Token.evaluate .tNot pkt st = .error .badStack) ∧
    (∀ (pkt : Pkt) (st : List Value), st.length < 2 →
      Token.evaluate .tAnd pkt st = .error .badStack) ∧
    (∀ (pkt : Pkt) (st : List Value), st.length < 2 →
      Token.evaluate .tOr pkt st = .error .badStack) ∧
    (∀ (pkt : Pkt) (st : List Value), st.length < 3 →
      Token.evaluate .tSubstring pkt st = .error .badStack) := by
  refine ⟨?_, ?_, ?_, ?_, ?_, ?_⟩ <;> intro pkt st h
  · rcases st with _ | ⟨a, _ | ⟨b, r⟩⟩
    · rfl
    · rfl
    · simp at h; omega
  · rcases st with _ | ⟨a, _ | ⟨b, r⟩⟩
    · rfl
    · rfl
    · simp at h; omega
  · rcases st with _ | ⟨a, r⟩
    · rfl
    · simp at h
  · rcases st with _ | ⟨a, _ | ⟨b, r⟩⟩
    · rfl
    · rfl
    · simp at h; omega
  · rcases st with _ | ⟨a, _ | ⟨b, r⟩⟩
    · rfl
    · rfl
    · simp at h; omega
  · rcases st with _ | ⟨a, _ | ⟨b, _ | ⟨c, r⟩⟩⟩
    · rfl
    · rfl
    · rfl
    · simp at h; omega

theorem C9_stack_underflow_witness :
    Token.evaluate .tEqual pkt0 [] = .error .badStack ∧
    Token.evaluate .tSubstring pkt0 [trueVal, trueVal] = .error .badStack :=
  ⟨C9_stack_underflow.1 pkt0 [] (by decide),
   C9_stack_underflow.2.2.2.2.2 pkt0 [trueVal, trueVal] (by decide)⟩

/-- C1: `evaluate(expression, packet)` starts from an empty stack, runs
each token in stored order, succeeds with the boolean of the final value
exactly when the final stack is the single value `"true"` or `"false"`,
and reports an error — never a default verdict — for any other final
stack; the expression `[Option(60, TEXTUAL), String("MSFT"), Equal]`
yields `true` on a packet whose option 60 payload is `"MSFT"` and
`false` on a packet without option 60. -/
theorem C1_evaluator_contract :
    (∀ (e : List Token) (pkt : Pkt) (b : Bool),
      evaluate e pkt = .ok b ↔ runExpr e pkt [] = .ok [boolVal b]) ∧
    (∀ (e : List Token) (pkt : Pkt) (st : List Value),
      runExpr e pkt [] = .ok st → st.length ≠ 1 →
      evaluate e pkt = .error .badStack) ∧
    (∀ (e : List Token) (pkt : Pkt) (v : Value),
      runExpr e pkt [] = .ok [v] → v ≠ trueVal → v ≠ falseVal →
      evaluate e pkt = .error .typeError) ∧
    evaluate msftExpr msftPkt = .ok true ∧
    evaluate msftExpr noVendorPkt = .ok false := by
  refine ⟨?_, ?_, ?_, rfl, rfl⟩
  · intro e pkt b
    cases h : runExpr e pkt [] with
    | error err =>
      rw [evaluate_run_error h]
      simp
    | ok st =>
      rcases st with _ | ⟨v, _ | ⟨w, rest⟩⟩
      · rw [evaluate_run_nil h]
        simp
      · rw [evaluate_run_single h]
        simp only [Except.ok.injEq, List.cons.injEq, and_true]
        exact toBool_ok_iff v b
      · rw [evaluate_run_many h]
        simp
  · intro e pkt st h hlen
    rcases st with _ | ⟨v, _ | ⟨w, rest⟩⟩
    · exact evaluate_run_nil h
    · simp at hlen
    · exact evaluate_run_many h
  · intro e pkt v h h1 h2
    rw [evaluate_run_single h]
    exact toBool_bad h1 h2

theorem C1_evaluator_contract_witness :
    evaluate [Token.tString trueVal, Token.tString trueVal] pkt0 =
      .error .badStack ∧
    evaluate [Token.tString msftVal] pkt0 = .error .typeError :=
  ⟨C1_evaluator_contract.2.1 [Token.tString trueVal, Token.tString trueVal]
     pkt0 [trueVal, trueVal] rfl (by decide),
   C1_evaluator_contract.2.2.1 [Token.tString msftVal] pkt0 msftVal rfl
     (by decide) (by decide)⟩

/-- C6: on a DHCPv6 packet, `Relay6Field(N, field)` pushes `""` when the
packet has fewer than `N + 1` relay envelopes; when the envelope at
depth `N` exists it pushes the selected peer-address or link-address
field, which is always exactly 16 bytes. -/
theorem C6_relay6_field :
    (∀ (p6 : Pkt6) (nest : Nat) (field : Relay6FieldType) (st : List Value),
      p6.relays.length ≤ nest →
      Token.evaluate (.tRelay6Field nest field) (.v6 p6) st =
        .ok (([] : Value) :: st)) ∧
    (∀ (p6 : Pkt6) (nest : Nat) (field : Relay6FieldType) (st : List Value)
       (r : Relay6), p6.relays.get? nest = some r →
      ∃ v : Value,
        Token.evaluate (.tRelay6Field nest field) (.v6 p6) st = .ok (v :: st) ∧
        v.length = 16 ∧
        v = (match field with
             | .PEERADDR => r.peeraddr
             | .LINKADDR => r.linkaddr)) := by
  constructor
  · intro p6 nest field st hle
    have h : p6.relays.get? nest = none := List.get?_eq_none.mpr hle
    simp only [Token.evaluate]
    rw [h]
  · intro p6 nest field st r hr
    refine ⟨_, ?_, ?_, rfl⟩
    · simp only [Token.evaluate]
      rw [hr]
    · cases field
      · exact r.peeraddr_len
      · exact r.linkaddr_len

theorem C6_relay6_field_witness :
    Token.evaluate (.tRelay6Field 1 .PEERADDR) (.v6 relayPkt6) [] =
      .ok [([] : Value)] ∧
    ∃ v : Value,
      Token.evaluate (.tRelay6Field 0 .PEERADDR) (.v6 relayPkt6) [] =
        .ok (v :: ([] : List Value)) ∧
      v.length = 16 ∧ v = relayZ.peeraddr :=
  ⟨C6_relay6_field.1 relayPkt6 1 .PEERADDR [] (by decide),
   C6_relay6_field.2 relayPkt6 0 .PEERADDR [] relayZ rfl⟩

/-- C7: `Pkt4Field` raises an `EvalTypeError` on every DHCPv6 packet and
`Pkt6Field` on every DHCPv4 packet; on the matching family, `chaddr` is
pushed at the packet's actual hardware-address length, the four IPv4
address fields as 4-byte values, and `hlen`, `htype`, `msgtype` and
`transid` each as a 4-byte big-endian value. -/
theorem C7_pkt_field_tokens :
    (∀ (p6 : Pkt6) (f : Pkt4FieldType) (st : List Value),
      Token.evaluate (.tPkt4 f) (.v6 p6) st = .error .typeError) ∧
    (∀ (p4 : Pkt4) (f : Pkt6FieldType) (st : List Value),
      Token.evaluate (.tPkt6 f) (.v4 p4) st = .error .typeError) ∧
    (∀ (p4 : Pkt4) (st : List Value),
      Token.evaluate (.tPkt4 .CHADDR) (.v4 p4) st = .ok (p4.hwaddr :: st)) ∧
    (∀ (p4 : Pkt4) (st : List Value), ∃ v : Value,
      Token.evaluate (.tPkt4 .GIADDR) (.v4 p4) st = .ok (v :: st) ∧
      v.length = 4 ∧ v = p4.giaddr) ∧
    (∀ (p4 : Pkt4) (st : List Value), ∃ v : Value,
      Token.evaluate (.tPkt4 .CIADDR) (.v4 p4) st = .ok (v :: st) ∧
      v.length = 4 ∧ v = p4.ciaddr) ∧
    (∀ (p4 : Pkt4) (st : List Value), ∃ v : Value,
      Token.evaluate (.tPkt4 .YIADDR) (.v4 p4) st = .ok (v :: st) ∧
      v.length = 4 ∧ v = p4.yiaddr) ∧
    (∀ (p4 : Pkt4) (st : List Value), ∃ v : Value,
      Token.evaluate (.tPkt4 .SIADDR) (.v4 p4) st = .ok (v :: st) ∧
      v.length = 4 ∧ v = p4.siaddr) ∧
    (∀ (p4 : Pkt4) (st : List Value),
      Token.evaluate (.tPkt4 .HLEN) (.v4 p4) st =
        .ok (u32be p4.hwaddr.length :: st)) ∧
    (∀ (p4 : Pkt4) (st : List Value),
      Token.evaluate (.tPkt4 .HTYPE) (.v4 p4) st =
        .ok (u32be p4.htype :: st)) ∧
    (∀ (p6 : Pkt6) (st : List Value),
      Token.evaluate (.tPkt6 .MSGTYPE) (.v6 p6) st =
        .ok (u32be p6.msgtype :: st)) ∧
    (∀ (p6 : Pkt6) (st : List Value),
      Token.evaluate (.tPkt6 .TRANSID) (.v6 p6) st =
        .ok (u32be p6.transid :: st)) ∧
    (∀ n : Nat, (u32be n).length = 4) := by
  refine ⟨?_, ?_, fun p4 st => rfl, ?_, ?_, ?_, ?_,
          fun p4 st => rfl, fun p4 st => rfl, fun p6 st => rfl,
          fun p6 st => rfl, fun n => rfl⟩
  · intro p6 f st
    cases f <;> rfl
  · intro p4 f st
    cases f <;> rfl
  · exact fun p4 st => ⟨p4.giaddr, rfl, p4.giaddr_len, rfl⟩
  · exact fun p4 st => ⟨p4.ciaddr, rfl, p4.ciaddr_len, rfl⟩
  · exact fun p4 st => ⟨p4.yiaddr, rfl, p4.yiaddr_len, rfl⟩
  · exact fun p4 st => ⟨p4.siaddr, rfl, p4.siaddr_len, rfl⟩

/-- C8: a `HexString` token built from a string that does not decode as
`0x`/`0X` plus hexadecimal digits, or an `IpAddress` token built from a
string that parses as neither an IPv4 nor an IPv6 address, still pushes
exactly one (empty) value at evaluation and never raises an error. -/
theorem C8_literal_leniency :
    (∀ (s : String) (pkt : Pkt) (st : List Value), hexDecode s = none →
      Token.evaluate (mkTokenHexString s) pkt st = .ok (([] : Value) :: st)) ∧
    (∀ (s : String) (pkt : Pkt) (st : List Value), parseIpAddress s = none →
      Token.evaluate (mkTokenIpAddress s) pkt st = .ok (([] : Value) :: st)) := by
  constructor
  · intro s pkt st h
    simp [mkTokenHexString, Token.evaluate, h]
  · intro s pkt st h
    simp [mkTokenIpAddress, Token.evaluate, h]

theorem C8_literal_leniency_witness :
    Token.evaluate (mkTokenHexString hexBadStr) pkt0 [] =
      .ok [([] : Value)] ∧
    Token.evaluate (mkTokenIpAddress ipBadStr) pkt0 [] =
      .ok [([] : Value)] :=
  ⟨C8_literal_leniency.1 hexBadStr pkt0 [] rfl,
   C8_literal_leniency.2 ipBadStr pkt0 [] rfl⟩

/-- C2: `Substring` pops `length`, `start`, `str`; an empty `str` pushes
`""` for every start and length; `start` must parse as a signed decimal
integer (else `EvalTypeError`), 0 being the first character and negative
counting from the end, and a resolved index outside the string pushes
`""`; `length` must be `"all"` (through the end) or a signed decimal
integer (else `EvalTypeError`), non-negative selecting forward clamped
to the end, negative selecting that many characters ending just before
`start` clamped to the start; the `"foobar"` table of the spec holds. -/
theorem C2_substring_operator :
    (∀ (pkt : Pkt) (lenv startv strv v : Value) (rest : List Value),
      substringEval strv startv lenv = .ok v →
      Token.evaluate .tSubstring pkt (lenv :: startv :: strv :: rest) =
        .ok (v :: rest)) ∧
    (∀ (pkt : Pkt) (lenv startv strv : Value) (err : EvalError)
       (rest : List Value),
      substringEval strv startv lenv = .error err →
      Token.evaluate .tSubstring pkt (lenv :: startv :: strv :: rest) =
        .error err) ∧
    (∀ startv lenv : Value, substringEval [] startv lenv = .ok []) ∧
    (∀ strv startv lenv : Value, strv ≠ [] → parseInt startv = none →
      substringEval strv startv lenv = .error .typeError) ∧
    (∀ (strv startv lenv : Value) (k : Int), strv ≠ [] →
      parseInt startv = some k →
      (resolveStart strv.length k < 0 ∨
        (strv.length : Int) ≤ resolveStart strv.length k) →
      substringEval strv startv lenv = .ok []) ∧
    (∀ (strv startv : Value) (k : Int), strv ≠ [] →
      parseInt startv = some k →
      0 ≤ resolveStart strv.length k →
      resolveStart strv.length k < (strv.length : Int) →
      substringEval strv startv allVal =
        .ok (strv.drop (resolveStart strv.length k).toNat)) ∧
    (∀ (strv startv lenv : Value) (k m : Int), strv ≠ [] →
      parseInt startv = some k →
      0 ≤ resolveStart strv.length k →
      resolveStart strv.length k < (strv.length : Int) →
      lenv ≠ allVal → parseInt lenv = some m → 0 ≤ m →
      substringEval strv startv lenv =
        .ok ((strv.drop (resolveStart strv.length k).toNat).take m.toNat)) ∧
    (∀ (strv startv lenv : Value) (k m : Int), strv ≠ [] →
      parseInt startv = some k →
      0 ≤ resolveStart strv.length k →
      resolveStart strv.length k < (strv.length : Int) →
      lenv ≠ allVal → parseInt lenv = some m → m < 0 →
      substringEval strv startv lenv =
        .ok ((strv.take (resolveStart strv.length k).toNat).drop
              ((resolveStart strv.length k).toNat - (-m).toNat))) ∧
    (∀ (strv startv lenv : Value) (k : Int), strv ≠ [] →
      parseInt startv = some k →
      0 ≤ resolveStart strv.length k →
      resolveStart strv.length k < (strv.length : Int) →
      lenv ≠ allVal → parseInt lenv = none →
      substringEval strv startv lenv = .error .typeError) ∧
    Token.evaluate .tSubstring pkt0
      [['a', 'l', 'l'], ['0'], ['f', 'o', 'o', 'b', 'a', 'r']] =
      .ok [['f', 'o', 'o', 'b', 'a', 'r']] ∧
    Token.evaluate .tSubstring pkt0
      [['6'], ['0'], ['f', 'o', 'o', 'b', 'a', 'r']] =
      .ok [['f', 'o', 'o', 'b', 'a', 'r']] ∧
    Token.evaluate .tSubstring pkt0
      [['4'], ['0'], ['f', 'o', 'o', 'b', 'a', 'r']] =
      .ok [['f', 'o', 'o', 'b']] ∧
    Token.evaluate .tSubstring pkt0
      [['a', 'l', 'l'], ['2'], ['f', 'o', 'o', 'b', 'a', 'r']] =
      .ok [['o', 'b', 'a', 'r']] ∧
    Token.evaluate .tSubstring pkt0
      [['6'], ['2'], ['f', 'o', 'o', 'b', 'a', 'r']] =
      .ok [['o', 'b', 'a', 'r']] ∧
    Token.evaluate .tSubstring pkt0
      [['a', 'l', 'l'], ['-', '1'], ['f', 'o', 'o', 'b', 'a', 'r']] =
      .ok [['r']] ∧
    Token.evaluate .tSubstring pkt0
      [['-', '4'], ['-', '1'], ['f', 'o', 'o', 'b', 'a', 'r']] =
      .ok [['o', 'o', 'b', 'a']] := by
  refine ⟨?_, ?_, fun startv lenv => rfl, ?_, ?_, ?_, ?_, ?_, ?_,
          rfl, rfl, rfl, rfl, rfl, rfl, rfl⟩
  · intro pkt lenv startv strv v rest h
    simp only [Token.evaluate, h]
  · intro pkt lenv startv strv err rest h
    simp only [Token.evaluate, h]
  · intro strv startv lenv hne hk
    unfold substringEval
    rw [if_neg hne, hk]
  · intro strv startv lenv k hne hk hout
    rw [substringEval_some lenv hne hk]
    unfold substringPostStart
    rw [if_pos hout]
  · intro strv startv k hne hk h0 h1
    rw [substringEval_some allVal hne hk]
    unfold substringPostStart
    rw [if_neg (by rw [not_or]; exact ⟨not_lt.mpr h0, not_le.mpr h1⟩)]
    unfold substringLen
    rw [if_pos rfl]
  · intro strv startv lenv k m hne hk h0 h1 hall hm hm0
    rw [substringEval_some lenv hne hk]
    unfold substringPostStart
    rw [if_neg (by rw [not_or]; exact ⟨not_lt.mpr h0, not_le.mpr h1⟩)]
    unfold substringLen
    rw [if_neg hall]
    simp only [hm]
    rw [if_pos hm0]
  · intro strv startv lenv k m hne hk h0 h1 hall hm hmneg
    rw [substringEval_some lenv hne hk]
    unfold substringPostStart
    rw [if_neg (by rw [not_or]; exact ⟨not_lt.mpr h0, not_le.mpr h1⟩)]
    unfold substringLen
    rw [if_neg hall]
    simp only [hm]
    rw [if_neg (not_le.mpr hmneg), List.drop_take]
  · intro strv startv lenv k hne hk h0 h1 hall hm
    rw [substringEval_some lenv hne hk]
    unfold substringPostStart
    rw [if_neg (by rw [not_or]; exact ⟨not_lt.mpr h0, not_le.mpr h1⟩)]
    unfold substringLen
    rw [if_neg hall]
    simp only [hm]

theorem C2_substring_operator_witness :
    substringEval ['f'] ['z'] allVal = .error .typeError ∧
    substringEval ['f', 'o', 'o', 'b', 'a', 'r'] ['-', '1'] ['-', '4'] =
      .ok ['o', 'o', 'b', 'a'] :=
  ⟨C2_substring_operator.2.2.2.1 ['f'] ['z'] allVal (by decide) (by decide),
   (C2_substring_operator.2.2.2.2.2.2.2.1
     ['f', 'o', 'o', 'b', 'a', 'r'] ['-', '1'] ['-', '4'] (-1) (-4)
     (by decide) (by decide) (by decide) (by decide) (by decide)
     (by decide) (by decide)).trans (by decide)⟩

/-- C10: every successful token evaluation changes the stack only at the
top: it pops exactly the token's arity (2 for `Equal`, `Concat`, `And`,
`Or`; 1 for `Not`; 3 for `Substring`; 0 for literals and extractors),
pushes exactly one value, and leaves everything beneath the consumed
operands unchanged in content and order. -/
theorem C10_frame_effect :
    ∀ (t : Token) (pkt : Pkt) (st st2 : List Value),
      Token.evaluate t pkt st = .ok st2 →
      t.arity ≤ st.length ∧ ∃ v : Value, st2 = v :: st.drop t.arity := by
  intro t pkt st st2 h
  cases t with
  | tString v =>
    simp only [Token.evaluate, Except.ok.injEq] at h
    exact ⟨Nat.zero_le _, v, h.symm⟩
  | tHexString v =>
    simp only [Token.evaluate, Except.ok.injEq] at h
    exact ⟨Nat.zero_le _, v, h.symm⟩
  | tIpAddress v =>
    simp only [Token.evaluate, Except.ok.injEq] at h
    exact ⟨Nat.zero_le _, v, h.symm⟩
  | tOption code rep =>
    simp only [Token.evaluate, Except.ok.injEq] at h
    exact ⟨Nat.zero_le _, _, h.symm⟩
  | tRelay4Option code rep =>
    simp only [Token.evaluate, Except.ok.injEq] at h
    exact ⟨Nat.zero_le _, _, h.symm⟩
  | tRelay6Option nest code rep =>
    simp only [Token.evaluate, Except.ok.injEq] at h
    exact ⟨Nat.zero_le _, _, h.symm⟩
  | tRelay6Field nest field =>
    cases pkt with
    | v4 p4 => simp [Token.evaluate] at h
    | v6 p6 =>
      refine ⟨Nat.zero_le _, ?_⟩
      simp only [Token.evaluate] at h
      cases hr : p6.relays.get? nest with
      | none =>
        simp only [hr, Except.ok.injEq] at h
        exact ⟨[], h.symm⟩
      | some r =>
        simp only [hr, Except.ok.injEq] at h
        exact ⟨_, h.symm⟩
  | tPkt4 field =>
    cases pkt with
    | v6 p6 => simp [Token.evaluate] at h
    | v4 p4 =>
      simp only [Token.evaluate, Except.ok.injEq] at h
      exact ⟨Nat.zero_le _, _, h.symm⟩
  | tPkt6 field =>
    cases pkt with
    | v4 p4 => simp [Token.evaluate] at h
    | v6 p6 =>
      simp only [Token.evaluate, Except.ok.injEq] at h
      exact ⟨Nat.zero_le _, _, h.symm⟩
  | tEqual =>
    rcases st with _ | ⟨a, _ | ⟨b, rest⟩⟩
    · simp [Token.evaluate] at h
    · simp [Token.evaluate] at h
    · simp only [Token.evaluate, Except.ok.injEq] at h
      exact ⟨by simp only [Token.arity, List.length_cons]; omega, _, h.symm⟩
  | tSubstring =>
    rcases st with _ | ⟨a, _ | ⟨b, _ | ⟨c, rest⟩⟩⟩
    · simp [Token.evaluate] at h
    · simp [Token.evaluate] at h
    · simp [Token.evaluate] at h
    · simp only [Token.evaluate] at h
      cases hs : substringEval c b a with
      | ok v =>
        simp only [hs, Except.ok.injEq] at h
        exact ⟨by simp only [Token.arity, List.length_cons]; omega, _, h.symm⟩
      | error e =>
        simp only [hs] at h
        simp at h
  | tConcat =>
    rcases st with _ | ⟨a, _ | ⟨b, rest⟩⟩
    · simp [Token.evaluate] at h
    · simp [Token.evaluate] at h
    · simp only [Token.evaluate, Except.ok.injEq] at h
      exact ⟨by simp only [Token.arity, List.length_cons]; omega, _, h.symm⟩
  | tNot =>
    rcases st with _ | ⟨v, rest⟩
    · simp [Token.evaluate] at h
    · simp only [Token.evaluate] at h
      cases hb : toBool v with
      | ok b =>
        simp only [hb, Except.ok.injEq] at h
        exact ⟨by simp only [Token.arity, List.length_cons]; omega, _, h.symm⟩
      | error e =>
        simp only [hb] at h
        simp at h
  | tAnd =>
    rcases st with _ | ⟨v1, _ | ⟨v2, rest⟩⟩
    · simp [Token.evaluate] at h
    · simp [Token.evaluate] at h
    · simp only [Token.evaluate] at h
      cases h1 : toBool v1 with
      | error e =>
        simp only [h1] at h
        simp at h
      | ok b1 =>
        simp only [h1] at h
        cases h2 : toBool v2 with
        | error e =>
          simp only [h2] at h
          simp at h
        | ok b2 =>
          simp only [h2, Except.ok.injEq] at h
          exact ⟨by simp only [Token.arity, List.length_cons]; omega, _, h.symm⟩
  | tOr =>
    rcases st with _ | ⟨v1, _ | ⟨v2, rest⟩⟩
    · simp [Token.evaluate] at h
    · simp [Token.evaluate] at h
    · simp only [Token.evaluate] at h
      cases h1 : toBool v1 with
      | error e =>
        simp only [h1] at h
        simp at h
      | ok b1 =>
        simp only [h1] at h
        cases h2 : toBool v2 with
        | error e =>
          simp only [h2] at h
          simp at h
        | ok b2 =>
          simp only [h2, Except.ok.injEq] at h
          exact ⟨by simp only [Token.arity, List.length_cons]; omega, _, h.symm⟩

theorem C10_frame_effect_witness :
    Token.arity .tEqual ≤ ([trueVal, falseVal] : List Value).length ∧
    ∃ v : Value,
      [falseVal] = v :: ([trueVal, falseVal] : List Value).drop
        (Token.arity .tEqual) :=
  C10_frame_effect .tEqual pkt0 [trueVal, falseVal] [falseVal] rfl

end Kea
